import Mathlib

/-!
Verification of the weekly-assignment-board repository.

The repository is a React scheduling widget with a week-keyed booking
store.  The parts of the source relevant to the claims are translated
here as executable Lean definitions:

* `src/src/App.jsx`  — date helpers (`startOfISOWeek`, `addDays`,
  `weekKeyFromDate`), the localStorage store (`apiGetWeekLS`,
  `apiCreateLS`, `apiDeleteLS`), the HTTP client wrappers
  (`apiCreateHTTP`, `apiDeleteHTTP`), the `CONFIG` constants and the
  `HOURS` list, and the `Board` component's `submit` handler.
* `src/bookings.js`  — the serverless request `handler`.
* `src/unnamed/part_001` — the roster-based variant (`Roster`
  namespace): its `weekKey`, `HOURS`, `assignFourHours` and
  `clearAssignment`.

Modelling conventions:

* A calendar date at UTC midnight is represented by its day number
  (days since the Unix epoch) as an `Int`; JavaScript `Date` objects in
  this code always sit at UTC midnight, and `toISOString` is injective
  on such instants, so the `dayISO` string field is represented by the
  day number as well.
* JavaScript `Date.UTC(y, m, d)` / `getUTCFullYear` correspond to
  `daysFromCivil` / `yearOfDay` (proleptic Gregorian, Howard Hinnant's
  algorithms with floor division, which is exactly what the ECMAScript
  specification prescribes for its date arithmetic).
* The browser's time-zone offset (minutes east of UTC) appears as an
  explicit parameter `tz` wherever the source applies *local* getters
  (`getFullYear/getMonth/getDate`) to a `Date`: the civil day read off
  an instant that sits at UTC midnight of day `z` is
  `Int.fdiv (z * 1440 + tz) 1440` (`localCivilDay`).
* JavaScript objects used as maps are association lists
  `List (String × α)`; object keys are unique, and assignment /
  `delete` are `setKey` / `eraseKey` (replace-first / erase-first,
  which agree with object semantics on unique-key lists).
* A record field that can be absent or hold `undefined` (the `id` of a
  draft) is an `IdField`: `absent` (no own property), `undef`
  (own property with value `undefined`, which `{ id, ...body }` spread
  copies but `JSON.stringify` drops), or `val s`.
* JavaScript `Math.round(n / 7)` for an integer `n` is
  `Int.fdiv (2 * n + 7) 14` (`n / 7` is never exactly half-way between
  integers, so the double rounding in JS cannot flip the result).
-/

/-! ### Calendar arithmetic (App.jsx date helpers, bookings day model) -/

/-- Model of `Date.UTC(y, m, d)` as a day number (days since the Unix epoch);
proleptic Gregorian calendar, `m` is the 1-based month. -/
def daysFromCivil (y m d : Int) : Int :=
  let y2 := if m ≤ 2 then y - 1 else y
  let era := Int.fdiv y2 400
  let yoe := y2 - era * 400
  let mp := if m ≤ 2 then m + 9 else m - 3
  let doy := Int.fdiv (153 * mp + 2) 5 + d - 1
  let doe := yoe * 365 + Int.fdiv yoe 4 - Int.fdiv yoe 100 + doy
  era * 146097 + doe - 719468

/-- Model of `getUTCFullYear` of a day number (inverse calendar conversion,
year component only). -/
def yearOfDay (z : Int) : Int :=
  let z2 := z + 719468
  let era := Int.fdiv z2 146097
  let doe := z2 - era * 146097
  let yoe := Int.fdiv (doe - Int.fdiv doe 1460 + Int.fdiv doe 36524 - Int.fdiv doe 146096) 365
  let y := yoe + era * 400
  let doy := doe - (365 * yoe + Int.fdiv yoe 4 - Int.fdiv yoe 100)
  let mp := Int.fdiv (5 * doy + 2) 153
  let m := if mp < 10 then mp + 3 else mp - 9
  if m ≤ 2 then y + 1 else y

/-- Model of `getUTCDay()`: 0 = Sunday .. 6 = Saturday.  The Unix epoch day was a
Thursday, and ECMAScript defines `WeekDay(t) = (Day(t) + 4) modulo 7`
with a floored modulo. -/
def dow (z : Int) : Int := (z + 4) % 7

/-- App.jsx `startOfISOWeek`: shift back to the Monday of the
(Monday-anchored) week containing the given day. -/
def startOfISOWeek (z : Int) : Int :=
  let day := if dow z = 0 then 7 else dow z
  z - (day - 1)

/-- App.jsx `addDays` (via `setUTCDate`): fixed-offset day addition. -/
def addDays (z n : Int) : Int := z + n

/-- The `target` computed inside `weekKeyFromDate`: the date shifted to
the Thursday of its Monday-anchored week,
`target.setUTCDate(target.getUTCDate() + 3 - ((target.getUTCDay() + 6) % 7))`. -/
def isoThursday (z : Int) : Int := z + 3 - (dow z + 6) % 7

/-- JS `Math.round(n / 7)` for an integer `n`. -/
def jsRoundDiv7 (n : Int) : Int := Int.fdiv (2 * n + 7) 14

/-- JS `String(n).padStart(2, "0")`. -/
def pad2 (n : Int) : String :=
  let s := toString n
  if s.length < 2 then "0" ++ s else s

/-- App.jsx `weekKeyFromDate`: ISO week label `YYYY-Www`, where the year
is read off the Thursday (`target`) of the week and the week number is
`1 + Math.round(((target - week1) / 86400000 - 3 + ((week1.getUTCDay() + 6) % 7)) / 7)`
with `week1 = Date.UTC(target.getUTCFullYear(), 0, 4)`. -/
def weekKeyFromDate (z : Int) : String :=
  let target := isoThursday z
  let week1 := daysFromCivil (yearOfDay target) 1 4
  let weekNo := 1 + jsRoundDiv7 (target - week1 - 3 + (dow week1 + 6) % 7)
  toString (yearOfDay target) ++ "-W" ++ pad2 weekNo

/-- The ISO week-year as the specification words it: the calendar year
of the Thursday of the date's Monday-anchored week. -/
def isoWeekYear (z : Int) : Int := yearOfDay (startOfISOWeek z + 3)

/-- The civil day obtained by applying the *local* getters
`getFullYear/getMonth/getDate` to an instant at UTC midnight of day `z`
and rebuilding a UTC date from them, in a browser whose time zone is
`tz` minutes east of UTC (as `submit` in App.jsx does with
`new Date(Date.UTC(d.getFullYear(), d.getMonth(), d.getDate()))`). -/
def localCivilDay (z tz : Int) : Int := Int.fdiv (z * 1440 + tz) 1440

namespace Roster

/-- part_001 `weekKey`: computes the same Thursday shift and week
number as `weekKeyFromDate`, but prefixes `const y = d.getUTCFullYear()`
— the *original* date's calendar year, not the Thursday's. -/
def weekKey (z : Int) : String :=
  let y := yearOfDay z
  let tmp := isoThursday z
  let week1 := daysFromCivil (yearOfDay tmp) 1 4
  let weekNo := 1 + jsRoundDiv7 (tmp - week1 - 3 + (dow week1 + 6) % 7)
  toString y ++ "-W" ++ pad2 weekNo

end Roster

/-! ### Association lists with JavaScript-object semantics -/

/-- Model of `obj[k] = v`: replace the first binding of `k`, or append one. -/
def setKey {α : Type} : List (String × α) → String → α → List (String × α)
  | [], k, v => [(k, v)]
  | (k', v') :: t, k, v =>
      if k' = k then (k, v) :: t else (k', v') :: setKey t k v

/-- Model of `obj[k]` as an option. -/
def lookupKey {α : Type} : List (String × α) → String → Option α
  | [], _ => none
  | (k', v') :: t, k => if k' = k then some v' else lookupKey t k

/-- Model of `delete obj[k]`. -/
def eraseKey {α : Type} : List (String × α) → String → List (String × α)
  | [], _ => []
  | (k', v') :: t, k => if k' = k then t else (k', v') :: eraseKey t k

/-- Model of `Object.values(obj)`. -/
def values {α : Type} (l : List (String × α)) : List α := l.map Prod.snd

/-- Model of `Object.keys(obj)`. -/
def keysOf {α : Type} (l : List (String × α)) : List String := l.map Prod.fst

theorem lookupKey_setKey_self {α : Type} (l : List (String × α)) (k : String) (v : α) :
    lookupKey (setKey l k v) k = some v := by
  induction l with
  | nil => simp [setKey, lookupKey]
  | cons hd t ih =>
      obtain ⟨k', v'⟩ := hd
      by_cases h : k' = k
      · simp [setKey, lookupKey, h]
      · simp [setKey, lookupKey, h, ih]

theorem lookupKey_setKey_ne {α : Type} (l : List (String × α)) (k k' : String) (v : α)
    (h : k' ≠ k) : lookupKey (setKey l k v) k' = lookupKey l k' := by
  have h' : ¬k = k' := fun hh => h hh.symm
  induction l with
  | nil => simp [setKey, lookupKey, h']
  | cons hd t ih =>
      obtain ⟨k0, v0⟩ := hd
      by_cases h0 : k0 = k
      · subst h0
        simp [setKey, lookupKey, h']
      · by_cases h1 : k0 = k'
        · subst h1
          simp [setKey, lookupKey, h0]
        · simp [setKey, lookupKey, h0, h1, ih]

theorem setKey_of_not_mem {α : Type} (l : List (String × α)) (k : String) (v : α)
    (h : k ∉ keysOf l) : setKey l k v = l ++ [(k, v)] := by
  induction l with
  | nil => simp [setKey]
  | cons hd t ih =>
      obtain ⟨k', v'⟩ := hd
      simp only [keysOf, List.map_cons, List.mem_cons] at h
      push_neg at h
      have h1 : ¬k' = k := fun hh => h.1 hh.symm
      simp [setKey, h1, ih (by simpa [keysOf] using h.2)]

theorem eraseKey_of_lookup_none {α : Type} (l : List (String × α)) (k : String)
    (h : lookupKey l k = none) : eraseKey l k = l := by
  induction l with
  | nil => rfl
  | cons hd t ih =>
      obtain ⟨k', v'⟩ := hd
      by_cases h0 : k' = k
      · simp [lookupKey, h0] at h
      · simp only [lookupKey, if_neg h0] at h
        simp [eraseKey, h0, ih h]

theorem mem_setKey {α : Type} (l : List (String × α)) (k : String) (v : α) (p : String × α)
    (h : p ∈ setKey l k v) : p = (k, v) ∨ p ∈ l := by
  induction l with
  | nil => simpa [setKey] using h
  | cons hd t ih =>
      obtain ⟨k', v'⟩ := hd
      by_cases h0 : k' = k
      · simp only [setKey, if_pos h0, List.mem_cons] at h
        rcases h with h | h
        · exact Or.inl h
        · exact Or.inr (List.mem_cons_of_mem _ h)
      · simp only [setKey, if_neg h0, List.mem_cons] at h
        rcases h with h | h
        · exact Or.inr (by simp [h])
        · rcases ih h with h1 | h1
          · exact Or.inl h1
          · exact Or.inr (List.mem_cons_of_mem _ h1)

theorem keysOf_setKey {α : Type} (l : List (String × α)) (k : String) (v : α) :
    keysOf (setKey l k v) = if k ∈ keysOf l then keysOf l else keysOf l ++ [k] := by
  induction l with
  | nil => simp [setKey, keysOf]
  | cons hd t ih =>
      obtain ⟨k', v'⟩ := hd
      by_cases h0 : k' = k
      · subst h0
        simp [setKey, keysOf]
      · have h0' : ¬k = k' := fun hh => h0 hh.symm
        simp only [setKey, if_neg h0, keysOf, List.map_cons] at ih ⊢
        rw [ih]
        by_cases hm : k ∈ List.map Prod.fst t
        · simp [hm, h0']
        · simp [hm, h0']

theorem nodup_keysOf_setKey {α : Type} (l : List (String × α)) (k : String) (v : α)
    (h : (keysOf l).Nodup) : (keysOf (setKey l k v)).Nodup := by
  rw [keysOf_setKey]
  by_cases hm : k ∈ keysOf l
  · simpa [hm] using h
  · simp only [if_neg hm]
    simpa [List.nodup_append] using ⟨h, hm⟩

theorem keysOf_eraseKey_sublist {α : Type} (l : List (String × α)) (k : String) :
    (keysOf (eraseKey l k)).Sublist (keysOf l) := by
  induction l with
  | nil => simp [eraseKey, keysOf]
  | cons hd t ih =>
      obtain ⟨k', v'⟩ := hd
      by_cases h0 : k' = k
      · simp only [eraseKey, if_pos h0, keysOf, List.map_cons]
        exact List.sublist_cons_of_sublist _ (List.Sublist.refl _)
      · simp only [eraseKey, if_neg h0, keysOf, List.map_cons]
        exact List.Sublist.cons₂ _ ih

theorem nodup_keysOf_eraseKey {α : Type} (l : List (String × α)) (k : String)
    (h : (keysOf l).Nodup) : (keysOf (eraseKey l k)).Nodup :=
  (keysOf_eraseKey_sublist l k).nodup h

theorem lookupKey_mem {α : Type} (l : List (String × α)) (k : String) (v : α)
    (h : lookupKey l k = some v) : (k, v) ∈ l := by
  induction l with
  | nil => simp [lookupKey] at h
  | cons hd t ih =>
      obtain ⟨k', v'⟩ := hd
      by_cases h0 : k' = k
      · subst h0
        simp only [lookupKey, if_true, eq_self_iff_true, Option.some.injEq, ite_true] at h
        subst h
        exact List.mem_cons_self _ _
      · simp only [lookupKey, if_neg h0] at h
        exact List.mem_cons_of_mem _ (ih h)

theorem mem_values_eraseKey {α : Type} (l : List (String × α)) (k : String) (x : α)
    (h : x ∈ values (eraseKey l k)) (hnd : (keysOf l).Nodup) :
    ∃ k', (k', x) ∈ l ∧ k' ≠ k := by
  induction l with
  | nil => simp [eraseKey, values] at h
  | cons hd t ih =>
      obtain ⟨k', v'⟩ := hd
      simp only [keysOf, List.map_cons, List.nodup_cons] at hnd
      by_cases h0 : k' = k
      · subst h0
        simp only [eraseKey, eq_self_iff_true, ite_true, values] at h
        obtain ⟨⟨k2, v2⟩, hm, he⟩ := List.mem_map.mp h
        subst he
        refine ⟨k2, List.mem_cons_of_mem _ hm, ?_⟩
        intro hk
        subst hk
        exact hnd.1 (by simpa [keysOf] using List.mem_map_of_mem Prod.fst hm)
      · simp only [eraseKey, if_neg h0, values, List.map_cons, List.mem_cons] at h
        rcases h with h | h
        · exact ⟨k', by simp [h], h0⟩
        · obtain ⟨k2, hm, hne⟩ := ih h (by simpa [keysOf] using hnd.2)
          exact ⟨k2, List.mem_cons_of_mem _ hm, hne⟩

/-! ### Booking records (data model shared by both backends) -/

/-- The state of the `id` property of a JS record object: no own
property, an own property holding `undefined`, or a string value. -/
inductive IdField where
  | absent
  | undef
  | val (s : String)
deriving DecidableEq

/-- A booking record / draft body.  `dayISO` is the UTC-midnight day
number encoded by the stored ISO string. -/
structure Rec where
  idF : IdField
  title : String
  dayISO : Int
  startHour : Int
  durationHours : Int
  weekKey : String
deriving DecidableEq

/-- The id of the result of the spread `{ id, ...body }`: the generated
id unless `body` carries an own `id` property (even one holding
`undefined`), which then overwrites it. -/
def spreadId (gen : String) : IdField → IdField
  | .absent => .val gen
  | .undef => .undef
  | .val s => .val s

/-- Model of `JSON.stringify`/`JSON.parse` round trip of a record: an own
property holding `undefined` is dropped. -/
def jsonRoundTrip (r : Rec) : Rec :=
  { r with idF := match r.idF with | .undef => .absent | x => x }

/-- Records equal "modulo the generated id": all fields but `idF`. -/
def eqModId (a b : Rec) : Bool :=
  a.title == b.title && a.dayISO == b.dayISO && a.startHour == b.startHour &&
    a.durationHours == b.durationHours && a.weekKey == b.weekKey

/-! ### localStorage backend (App.jsx storage layer) -/

/-- The serialized localStorage snapshot under `weekly_four_hour_board_v1`:
a JSON mapping from id to record. -/
abbrev LSStore := List (String × Rec)

/-- Model of `apiGetWeekLS`: `Object.values(all).filter(b => b.weekKey === weekKey)`. -/
def apiGetWeekLS (weekKey : String) (all : LSStore) : List Rec :=
  (values all).filter (fun b => b.weekKey == weekKey)

/-- Model of `apiCreateLS`: generate an id (`gen`, nondeterministic in JS, a
parameter here), store `{ id, ...body }` under it, persist via
`JSON.stringify` (dropping `undefined` fields), and return the
*in-memory* record `all[id]`.  Returns the new snapshot and the
returned record. -/
def apiCreateLS (gen : String) (body : Rec) (all : LSStore) : LSStore × Rec :=
  let record := { body with idF := spreadId gen body.idF }
  (setKey all gen (jsonRoundTrip record), record)

/-- Model of `apiDeleteLS`: `delete all[id]` then save; never throws (`saveAllLS`
swallows storage errors), so the caller-visible result is always `ok`. -/
def apiDeleteLS (id : String) (all : LSStore) : LSStore × Except String Unit :=
  (eraseKey all id, Except.ok ())

/-! ### HTTP backend: the serverless handler (bookings.js) -/

inductive Method where
  | get
  | post
  | delete
  | other (name : String)
deriving DecidableEq

structure Query where
  weekKey : Option String
  id : Option String
deriving DecidableEq

structure Req where
  method : Method
  query : Query
  body : Option Rec
deriving DecidableEq

inductive RespBody where
  | jsonList (records : List Rec)
  | jsonRecord (record : Rec)
  | jsonErr (msg : String)
  | jsonOk
  | text (s : String)
deriving DecidableEq

structure Resp where
  status : Int
  allow : Option (List String)
  body : RespBody
deriving DecidableEq

/-- A JS string option seen as a boolean: `none` and `""` are falsy. -/
def jsTruthy : Option String → Option String
  | none => none
  | some s => if s = "" then none else some s

/-- JS `a || b` on possibly-missing strings. -/
def jsOr (a b : Option String) : Option String :=
  match jsTruthy a with
  | some s => some s
  | none => b

/-- The server's module-level `cache`: `weekKey -> id -> record`. -/
abbrev Srv := List (String × List (String × Rec))

/-- Model of `cache[weekKey]`, reading a missing bucket as empty. -/
def bucket (cache : Srv) (weekKey : String) : List (String × Rec) :=
  (lookupKey cache weekKey).getD []

/-- Model of `if (!cache[weekKey]) cache[weekKey] = {}`. -/
def ensureBucket (cache : Srv) (weekKey : String) : Srv :=
  match lookupKey cache weekKey with
  | some _ => cache
  | none => setKey cache weekKey []

/-- A record whose fields are all empty/zero: what `{ id, ...body }`
with a missing body amounts to (only the id is populated; no request in
this development takes the POST branch without a body). -/
def emptyRec : Rec :=
  { idF := .absent, title := "", dayISO := 0, startHour := 0, durationHours := 0, weekKey := "" }

/-- bookings.js `handler`.  `gen` is the id the POST branch would
generate (`b_${Date.now()}_${random}`).  Returns the new cache and the
response.  The missing-weekKey check precedes everything else,
including the method dispatch. -/
def handler (gen : String) (req : Req) (cache : Srv) : Srv × Resp :=
  match jsTruthy (jsOr req.query.weekKey (req.body.map (fun b => b.weekKey))) with
  | none => (cache, { status := 400, allow := none, body := .jsonErr "Missing weekKey" })
  | some wk =>
      let cache1 := ensureBucket cache wk
      match req.method with
      | .get => (cache1, { status := 200, allow := none, body := .jsonList (values (bucket cache1 wk)) })
      | .post =>
          let b := req.body.getD emptyRec
          let record := { b with idF := spreadId gen b.idF }
          (setKey cache1 wk (setKey (bucket cache1 wk) gen record),
           { status := 201, allow := none, body := .jsonRecord record })
      | .delete =>
          match jsTruthy req.query.id with
          | some i =>
              if (lookupKey (bucket cache1 wk) i).isSome then
                (setKey cache1 wk (eraseKey (bucket cache1 wk) i),
                 { status := 200, allow := none, body := .jsonOk })
              else (cache1, { status := 200, allow := none, body := .jsonOk })
          | none => (cache1, { status := 200, allow := none, body := .jsonOk })
      | .other name =>
          (cache1, { status := 405, allow := some ["GET", "POST", "DELETE"],
                     body := .text ("Method " ++ name ++ " Not Allowed") })

/-- Model of `r.ok` in fetch: status in the 200–299 range. -/
def respOk (r : Resp) : Bool := 200 ≤ r.status && r.status < 300

/-- The error text a client surfaces from a non-ok response body. -/
def respText (r : Resp) : String :=
  match r.body with
  | .jsonErr msg => msg
  | .text s => s
  | _ => ""

/-! ### HTTP backend: the client wrappers (App.jsx) -/

/-- Model of `apiGetWeekHTTP`: `GET /bookings?weekKey=...`; throws on non-ok. -/
def apiGetWeekHTTP (weekKey : String) (cache : Srv) : Srv × Except String (List Rec) :=
  let out := handler "" { method := .get, query := { weekKey := some weekKey, id := none }, body := none } cache
  (out.1,
   if respOk out.2 then
     match out.2.body with
     | .jsonList records => .ok records
     | _ => .error "unexpected body"
   else .error (respText out.2))

/-- Model of `apiCreateHTTP`: `POST /bookings` with `JSON.stringify(body)` — the
serialization drops `undefined`-valued fields; throws on non-ok. -/
def apiCreateHTTP (gen : String) (body : Rec) (cache : Srv) : Srv × Except String Rec :=
  let out := handler gen { method := .post, query := { weekKey := none, id := none }, body := some (jsonRoundTrip body) } cache
  (out.1,
   if respOk out.2 then
     match out.2.body with
     | .jsonRecord record => .ok record
     | _ => .error "unexpected body"
   else .error (respText out.2))

/-- Model of `apiDeleteHTTP`: `DELETE ${backendUrl}/bookings/${id}` — the id
travels in the path, so the request carries *no* `weekKey` (modelled
charitably: even if routing handed the path segment to the handler as
`query.id`, `query.weekKey` and the body are absent); throws on non-ok. -/
def apiDeleteHTTP (id : String) (cache : Srv) : Srv × Except String Unit :=
  let out := handler "" { method := .delete, query := { weekKey := none, id := some id }, body := none } cache
  (out.1, if respOk out.2 then .ok () else .error (respText out.2))

/-! ### The Board UI (App.jsx CONFIG, HOURS and submit) -/

/-- JS `String.prototype.trim()`: strip leading and trailing
whitespace (kernel-reducible formulation over the character list). -/
def jsTrim (s : String) : String :=
  ⟨((s.data.dropWhile Char.isWhitespace).reverse.dropWhile Char.isWhitespace).reverse⟩

/-- Model of `CONFIG.onePerWeek`. -/
def cfgOnePerWeek : Bool := true

/-- Model of `CONFIG.hoursStart`: start of the visible day. -/
def hoursStart : Int := 7

/-- Model of `CONFIG.hoursEnd`: end of the visible day (exclusive). -/
def hoursEnd : Int := 20

/-- Model of `HOURS = Array.from({ length: (CONFIG.hoursEnd - CONFIG.hoursStart) + 1 }, (_, i) => CONFIG.hoursStart + i)`. -/
def HOURS : List Int :=
  (List.range ((hoursEnd - hoursStart).toNat + 1)).map (fun i => hoursStart + (i : Int))

/-- The draft `submit` passes to `API.create`: an explicit
`id: undefined` property, the trimmed name, the day obtained by
applying *local* getters to `days[dayIndex]` (= `baseDate + dayIndex`
at UTC midnight) in a `tz`-minute-offset browser, and the week key of
`baseDate`. -/
def uiDraft (base dayIndex tz : Int) (nm : String) (startHour : Int) : Rec :=
  { idF := .undef, title := nm, dayISO := localCivilDay (base + dayIndex) tz,
    startHour := startHour, durationHours := 4, weekKey := weekKeyFromDate base }

/-- The Board state the claims touch: the localStorage snapshot, the
`bookings` state variable, and the `error` message. -/
structure BoardState where
  store : LSStore
  bookings : List Rec
  error : String
deriving DecidableEq

/-- Model of `submit` under the localStorage backend (`CONFIG.backendUrl` is
`null` in App.jsx): validate the trimmed name, apply the one-per-week
check against the current `bookings` snapshot, otherwise create and
re-load the week. -/
def submit (gen : String) (base tz : Int) (name : String) (dayIndex startHour : Int)
    (st : BoardState) : BoardState :=
  let nm := jsTrim name
  if nm = "" then { st with error := "Please enter your name" }
  else if cfgOnePerWeek && st.bookings.any (fun b => b.title == nm) then
    { st with error := "You already have a 4‑hour assignment this week." }
  else
    let wk := weekKeyFromDate base
    let created := apiCreateLS gen (uiDraft base dayIndex tz nm startHour) st.store
    { store := created.1, bookings := apiGetWeekLS wk created.1, error := "" }

/-! ### The roster-based variant (part_001) -/

namespace Roster

/-- part_001 `HOURS`: `Array.from({ length: 13 }, (_, i) => 6 + i)`. -/
def HOURS : List Int := (List.range 13).map (fun i => 6 + (i : Int))

/-- One `assignments[wk][pid]` entry. -/
structure Entry where
  dayIndex : Int
  startHour : Int
deriving DecidableEq

/-- The `assignments` state: `weekKey -> personId -> entry`. -/
abbrev Assigns := List (String × List (String × Entry))

/-- Model of `const thisWeek = assignments[wkKey] || {}`. -/
def thisWeek (assignments : Assigns) (wkKey : String) : List (String × Entry) :=
  (lookupKey assignments wkKey).getD []

/-- part_001 `assignFourHours`: no-op on an empty person id or when
`selectedStart + 4 > 24`; otherwise set
`assignments[wkKey][selectedPersonId] = { dayIndex, startHour }`
(replacing any existing entry for that person). -/
def assignFourHours (assignments : Assigns) (wkKey selectedPersonId : String)
    (selectedDay selectedStart : Int) : Assigns :=
  if selectedPersonId = "" then assignments
  else if selectedStart + 4 > 24 then assignments
  else
    setKey assignments wkKey
      (setKey (thisWeek assignments wkKey) selectedPersonId
        { dayIndex := selectedDay, startHour := selectedStart })

/-- part_001 `clearAssignment`: `delete week[pid]`. -/
def clearAssignment (assignments : Assigns) (wkKey pid : String) : Assigns :=
  setKey assignments wkKey (eraseKey (thisWeek assignments wkKey) pid)

/-- Key-uniqueness invariant: week keys are distinct, and within every
week's map the person ids are distinct, so each (week, person) pair has
at most one assignment. -/
def InvA (s : Assigns) : Prop :=
  (keysOf s).Nodup ∧ ∀ p ∈ s, (keysOf p.2).Nodup

/-- States reachable through the component's two mutations, starting
from the empty assignments object. -/
inductive ReachableA : Assigns → Prop where
  | init : ReachableA []
  | assign {s : Assigns} (wkKey pid : String) (d h : Int) :
      ReachableA s → ReachableA (assignFourHours s wkKey pid d h)
  | clear {s : Assigns} (wkKey pid : String) :
      ReachableA s → ReachableA (clearAssignment s wkKey pid)

end Roster

/-! ### Supporting lemmas: week-key arithmetic -/

theorem isoThursday_eq_startOfISOWeek_add_three (z : Int) :
    isoThursday z = startOfISOWeek z + 3 := by
  simp only [isoThursday, startOfISOWeek, dow]
  by_cases h0 : (z + 4) % 7 = 0
  · rw [if_pos h0]
    omega
  · rw [if_neg h0]
    omega

theorem weekKeyFromDate_congr {a b : Int} (h : isoThursday a = isoThursday b) :
    weekKeyFromDate a = weekKeyFromDate b := by
  simp only [weekKeyFromDate]
  rw [h]

theorem isoThursday_add_of_monday {base i : Int} (hb : dow base = 1)
    (h0 : 0 ≤ i) (h6 : i ≤ 6) : isoThursday (base + i) = isoThursday base := by
  simp only [dow] at hb
  simp only [isoThursday, dow]
  omega

theorem localCivilDay_nonneg_tz (z tz : Int) (h0 : 0 ≤ tz) (h1 : tz < 1440) :
    localCivilDay z tz = z := by
  simp only [localCivilDay]
  rw [Int.fdiv_eq_ediv _ (by norm_num : (0 : Int) ≤ 1440)]
  omega

theorem localCivilDay_neg_tz (z tz : Int) (h0 : -1440 < tz) (h1 : tz < 0) :
    localCivilDay z tz = z - 1 := by
  simp only [localCivilDay]
  rw [Int.fdiv_eq_ediv _ (by norm_num : (0 : Int) ≤ 1440)]
  omega

/-! ### Claim C3 -/

/-- C3: the `YYYY` component of a week key should be the ISO week-year,
i.e. the calendar year of the Thursday of the date's Monday-anchored
week.  App.jsx's `weekKeyFromDate` satisfies this for every date (its
year is read off `isoThursday`, which *is* the Monday of the week plus
three days).  The roster variant's `weekKey` does not: it prefixes the
original date's calendar year, so on 2025-12-29 (a Monday whose week's
Thursday is 2026-01-01) it yields `"2025-W01"` although the ISO
week-year is 2026 (App.jsx correctly yields `"2026-W01"`). -/
theorem c3_week_year_component :
    (∀ z : Int, yearOfDay (isoThursday z) = isoWeekYear z) ∧
    weekKeyFromDate (daysFromCivil 2025 12 29) = "2026-W01" ∧
    Roster.weekKey (daysFromCivil 2025 12 29) = "2025-W01" ∧
    isoWeekYear (daysFromCivil 2025 12 29) = 2026 := by
  refine ⟨fun z => ?_, rfl, rfl, by decide⟩
  rw [isoThursday_eq_startOfISOWeek_add_three]
  rfl

/-! ### Claim C4 -/

/-- C4 counterexample: in a browser 300 minutes west of UTC, the draft
the UI submits for the Monday column (`dayIndex = 0`) of the week of
Monday 2025-11-10 stores `dayISO` = Sunday 2025-11-09, whose week key
`"2025-W45"` differs from the stored `weekKey` `"2025-W46"` — `submit`
applies local getters to a UTC-midnight date. -/
theorem c4_invariant_cex :
    dow (daysFromCivil 2025 11 10) = 1 ∧
    weekKeyFromDate (uiDraft (daysFromCivil 2025 11 10) 0 (-300) "Alex" 8).dayISO ≠
      (uiDraft (daysFromCivil 2025 11 10) 0 (-300) "Alex" 8).weekKey := by
  constructor
  · decide
  · decide

/-- C4 (amended): for a Monday `base` (the Board's `baseDate` is always
a Monday) and a day index 0–6, the stored `weekKey` equals
`weekKeyFromDate` of the stored `dayISO` whenever the browser's UTC
offset is nonnegative (UTC or east); with a negative offset the
invariant still holds for day indices 1–6 (the stored day slips one day
back but stays inside the same Monday-anchored week), failing only for
the Monday column. -/
theorem c4_weekKey_invariant (base dayIndex tz : Int) (nm : String) (startHour : Int)
    (hmon : dow base = 1) (hi0 : 0 ≤ dayIndex) (hi6 : dayIndex ≤ 6) :
    (0 ≤ tz → tz < 1440 →
      weekKeyFromDate (uiDraft base dayIndex tz nm startHour).dayISO =
        (uiDraft base dayIndex tz nm startHour).weekKey) ∧
    (-1440 < tz → tz < 0 → 1 ≤ dayIndex →
      weekKeyFromDate (uiDraft base dayIndex tz nm startHour).dayISO =
        (uiDraft base dayIndex tz nm startHour).weekKey) := by
  constructor
  · intro h0 h1
    show weekKeyFromDate (localCivilDay (base + dayIndex) tz) = weekKeyFromDate base
    rw [localCivilDay_nonneg_tz _ _ h0 h1]
    exact weekKeyFromDate_congr (isoThursday_add_of_monday hmon hi0 hi6)
  · intro h0 h1 h2
    show weekKeyFromDate (localCivilDay (base + dayIndex) tz) = weekKeyFromDate base
    rw [localCivilDay_neg_tz _ _ h0 h1]
    have hsplit : base + dayIndex - 1 = base + (dayIndex - 1) := by ring
    rw [hsplit]
    exact weekKeyFromDate_congr (isoThursday_add_of_monday hmon (by omega) (by omega))

/-- C4 witness: Wednesday of the week of Monday 2025-11-10 in a
UTC+2 browser. -/
theorem c4_weekKey_invariant_witness :
    weekKeyFromDate (uiDraft (daysFromCivil 2025 11 10) 2 120 "Alex" 8).dayISO =
      (uiDraft (daysFromCivil 2025 11 10) 2 120 "Alex" 8).weekKey :=
  (c4_weekKey_invariant (daysFromCivil 2025 11 10) 2 120 "Alex" 8
    (by decide) (by decide) (by decide)).1 (by decide) (by decide)

/-! ### Claim C1 -/

/-- The draft the UI's submit actually builds for the Monday column of
the week of Monday 2025-11-10 in a UTC browser: it carries an explicit
`id: undefined` own-property. -/
def uiDraftAlex : Rec := uiDraft (daysFromCivil 2025 11 10) 0 0 "Alex" 8

/-- C1: `create` should return the stored record with `id` equal to the
freshly generated id.  In the localStorage backend the spread
`all[id] = { id, ...body }` lets the draft's own `id: undefined`
property overwrite the generated id: the returned record's `id` is
`undefined` (not the generated `"b_1_x"`), and the persisted record
(after the `JSON.stringify` round trip) has *no* id at all.  Over the
HTTP backend the same draft works, because `JSON.stringify` drops the
`undefined`-valued field before the handler spreads the body. -/
theorem c1_create_returns_generated_id :
    (apiCreateLS "b_1_x" uiDraftAlex []).2.idF = IdField.undef ∧
    IdField.undef ≠ IdField.val "b_1_x" ∧
    lookupKey (apiCreateLS "b_1_x" uiDraftAlex []).1 "b_1_x" =
      some { uiDraftAlex with idF := IdField.absent } ∧
    (apiCreateHTTP "b_1_x" uiDraftAlex []).2 =
      Except.ok { uiDraftAlex with idF := IdField.val "b_1_x" } := by
  refine ⟨rfl, by decide, rfl, rfl⟩

/-! ### Claim C2 -/

/-- A well-formed stored booking used to compare the two backends. -/
def recAlex : Rec :=
  { idF := IdField.val "b_1", title := "Alex", dayISO := daysFromCivil 2025 11 10,
    startHour := 8, durationHours := 4, weekKey := "2025-W46" }

/-- C2: the two backends are not observationally equivalent.  Deleting
the stored booking `"b_1"` through the localStorage variant silently
succeeds and removes it from the week's listing; the HTTP variant's
`apiDeleteHTTP` sends the id in the URL path and no `weekKey`, so the
handler answers 400 "Missing weekKey" before reaching its DELETE
branch: the client throws and the booking stays stored. -/
theorem c2_backends_observably_differ :
    (apiDeleteLS "b_1" [("b_1", recAlex)]).2 = Except.ok () ∧
    apiGetWeekLS "2025-W46" (apiDeleteLS "b_1" [("b_1", recAlex)]).1 = [] ∧
    (apiDeleteHTTP "b_1" [("2025-W46", [("b_1", recAlex)])]).2 =
      Except.error "Missing weekKey" ∧
    values (bucket (apiDeleteHTTP "b_1" [("2025-W46", [("b_1", recAlex)])]).1 "2025-W46") =
      [recAlex] := by
  refine ⟨rfl, by decide, rfl, rfl⟩

/-! ### Claim C5 -/

/-- Number of stored bookings for a given (weekKey, title) pair. -/
def countWeekTitle (all : LSStore) (wk t : String) : Nat :=
  List.countP (fun r => r.weekKey == wk && r.title == t) (values all)

/-- C5: under `CONFIG.onePerWeek`, a submission whose trimmed name `t`
already has a booking in the displayed week (with the `bookings`
snapshot in sync with the store, as it is after the previous submit's
re-load) is rejected with the inline validation message and no store
mutation, leaving exactly one booking for that (weekKey, title) pair. -/
theorem c5_one_per_week_rejects (gen : String) (base tz : Int) (name : String)
    (dayIndex startHour : Int) (st : BoardState) (t : String)
    (hsync : st.bookings = apiGetWeekLS (weekKeyFromDate base) st.store)
    (hname : jsTrim name = t) (ht : t ≠ "")
    (hcount : countWeekTitle st.store (weekKeyFromDate base) t = 1) :
    submit gen base tz name dayIndex startHour st =
      { st with error := "You already have a 4‑hour assignment this week." } ∧
    countWeekTitle (submit gen base tz name dayIndex startHour st).store
      (weekKeyFromDate base) t = 1 := by
  have hany : st.bookings.any (fun b => b.title == t) = true := by
    have hpos : 0 < List.countP (fun r => r.weekKey == weekKeyFromDate base && r.title == t)
        (values st.store) := by
      unfold countWeekTitle at hcount
      omega
    obtain ⟨r, hmem, hp⟩ := List.countP_pos_iff.mp hpos
    rw [Bool.and_eq_true] at hp
    refine List.any_eq_true.mpr ⟨r, ?_, hp.2⟩
    rw [hsync]
    exact List.mem_filter.mpr ⟨hmem, hp.1⟩
  have hmain : submit gen base tz name dayIndex startHour st =
      { st with error := "You already have a 4‑hour assignment this week." } := by
    simp only [submit]
    rw [hname, if_neg ht]
    simp [cfgOnePerWeek, hany]
  refine ⟨hmain, ?_⟩
  rw [hmain]
  exact hcount

/-- The existing synced booking used in the C5 witness. -/
def recAlexSynced : Rec :=
  { idF := IdField.val "b_1", title := "Alex", dayISO := daysFromCivil 2025 11 10,
    startHour := 8, durationHours := 4,
    weekKey := weekKeyFromDate (daysFromCivil 2025 11 10) }

/-- C5 witness: with Alex already booked in week 2025-W46 and the
snapshot in sync, a second "Alex" submission leaves exactly one
(week, title) booking. -/
theorem c5_one_per_week_rejects_witness :
    countWeekTitle (submit "b_2" (daysFromCivil 2025 11 10) 0 "Alex" 0 8
      { store := [("b_1", recAlexSynced)], bookings := [recAlexSynced], error := "" }).store
      (weekKeyFromDate (daysFromCivil 2025 11 10)) "Alex" = 1 :=
  (c5_one_per_week_rejects "b_2" (daysFromCivil 2025 11 10) 0 "Alex" 0 8
    { store := [("b_1", recAlexSynced)], bookings := [recAlexSynced], error := "" } "Alex"
    (by decide) (by decide) (by decide) (by decide)).2

/-! ### Claim C6 -/

/-- Stores whose records carry their own key as id (as both backends
create them from id-less drafts), with unique keys. -/
def WFStore (all : List (String × Rec)) : Prop :=
  (keysOf all).Nodup ∧ ∀ p ∈ all, p.2.idF = IdField.val p.1

instance (all : List (String × Rec)) : Decidable (WFStore all) := by
  unfold WFStore
  exact inferInstance

/-- The DELETE request of the specification's HTTP surface,
`DELETE /bookings?id=<id>&weekKey=<key>`. -/
def deleteReq (wk id : String) : Req :=
  { method := Method.delete, query := { weekKey := some wk, id := some id }, body := none }

theorem handler_delete_reduce (gen wk id : String) (cache : Srv)
    (hwk : wk ≠ "") (hid : id ≠ "") :
    handler gen (deleteReq wk id) cache =
      (if (lookupKey (bucket (ensureBucket cache wk) wk) id).isSome then
        (setKey (ensureBucket cache wk) wk (eraseKey (bucket (ensureBucket cache wk) wk) id),
         { status := 200, allow := none, body := RespBody.jsonOk })
      else (ensureBucket cache wk, { status := 200, allow := none, body := RespBody.jsonOk })) := by
  simp only [handler, deleteReq, jsOr, jsTruthy, Option.map, if_neg hwk, if_neg hid]

theorem bucket_ensureBucket (cache : Srv) (wk w : String) :
    bucket (ensureBucket cache wk) w = bucket cache w := by
  unfold ensureBucket
  cases hl : lookupKey cache wk with
  | some b => rfl
  | none =>
      by_cases hw : w = wk
      · subst hw
        simp [bucket, lookupKey_setKey_self, hl]
      · simp [bucket, lookupKey_setKey_ne _ _ _ _ hw]

/-- C6: `delete` removes a present record — a subsequent listing of its
week no longer includes it — and is a silent 200/ok no-op on an absent
id, in both the localStorage backend and the handler's DELETE branch
(which takes the `weekKey` the spec's DELETE route carries). -/
theorem c6_delete_semantics (all : LSStore) (cache : Srv)
    (idP idA wk bid bidA : String) (r br : Rec) (bkt : List (String × Rec))
    (hwf : WFStore all) (hp : lookupKey all idP = some r) (ha : lookupKey all idA = none)
    (hbkt : lookupKey cache wk = some bkt) (hbwf : WFStore bkt)
    (hbp : lookupKey bkt bid = some br) (hba : lookupKey bkt bidA = none)
    (hwk : wk ≠ "") (hbid : bid ≠ "") (hbidA : bidA ≠ "") :
    ((apiDeleteLS idP all).2 = Except.ok () ∧
      r ∉ apiGetWeekLS r.weekKey (apiDeleteLS idP all).1) ∧
    ((apiDeleteLS idA all).1 = all ∧ (apiDeleteLS idA all).2 = Except.ok ()) ∧
    ((handler "" (deleteReq wk bid) cache).2.status = 200 ∧
      (handler "" (deleteReq wk bid) cache).2.body = RespBody.jsonOk ∧
      br ∉ values (bucket (handler "" (deleteReq wk bid) cache).1 wk)) ∧
    ((handler "" (deleteReq wk bidA) cache).2.status = 200 ∧
      (handler "" (deleteReq wk bidA) cache).2.body = RespBody.jsonOk ∧
      ∀ w, values (bucket (handler "" (deleteReq wk bidA) cache).1 w) =
        values (bucket cache w)) := by
  have hens : ensureBucket cache wk = cache := by
    unfold ensureBucket
    rw [hbkt]
  have hbb : bucket cache wk = bkt := by
    unfold bucket
    rw [hbkt]
    rfl
  refine ⟨⟨rfl, ?_⟩, ⟨?_, rfl⟩, ?_, ?_⟩
  · -- LS, present id: the record is gone from its week's listing
    intro hmem
    have hv : r ∈ values (eraseKey all idP) := (List.mem_filter.mp hmem).1
    obtain ⟨k', hk', hne⟩ := mem_values_eraseKey all idP r hv hwf.1
    have h1 : r.idF = IdField.val k' := hwf.2 (k', r) hk'
    have h2 : r.idF = IdField.val idP := hwf.2 (idP, r) (lookupKey_mem all idP r hp)
    exact hne (IdField.val.inj (h1.symm.trans h2))
  · -- LS, absent id: no-op
    exact eraseKey_of_lookup_none all idA ha
  · -- handler, present id
    rw [handler_delete_reduce "" wk bid cache hwk hbid, hens, hbb, hbp]
    refine ⟨rfl, rfl, ?_⟩
    show br ∉ values (bucket (setKey cache wk (eraseKey bkt bid)) wk)
    have hbucket : bucket (setKey cache wk (eraseKey bkt bid)) wk = eraseKey bkt bid := by
      unfold bucket
      rw [lookupKey_setKey_self]
      rfl
    rw [hbucket]
    intro hmem
    obtain ⟨k', hk', hne⟩ := mem_values_eraseKey bkt bid br hmem hbwf.1
    have h1 : br.idF = IdField.val k' := hbwf.2 (k', br) hk'
    have h2 : br.idF = IdField.val bid := hbwf.2 (bid, br) (lookupKey_mem bkt bid br hbp)
    exact hne (IdField.val.inj (h1.symm.trans h2))
  · -- handler, absent id
    rw [handler_delete_reduce "" wk bidA cache hwk hbidA, hens, hbb, hba]
    exact ⟨rfl, rfl, fun w => rfl⟩

/-- C6 witness: deleting stored id `"b_1"` removes Alex's booking from
week 2025-W46's listing in the localStorage backend (absent-id and
handler legs are instantiated with the unknown id `"zz"`). -/
theorem c6_delete_semantics_witness :
    (apiDeleteLS "b_1" [("b_1", recAlex)]).2 = Except.ok () ∧
    recAlex ∉ apiGetWeekLS recAlex.weekKey (apiDeleteLS "b_1" [("b_1", recAlex)]).1 :=
  (c6_delete_semantics [("b_1", recAlex)] [("2025-W46", [("b_1", recAlex)])]
    "b_1" "zz" "2025-W46" "b_1" "zz" recAlex recAlex [("b_1", recAlex)]
    (by decide) rfl rfl rfl (by decide) rfl rfl (by decide) (by decide) (by decide)).1

/-! ### Claim C7 -/

/-- A booking already stored in week 2025-W10. -/
def recDup : Rec :=
  { idF := IdField.val "b_0", title := "Alex", dayISO := daysFromCivil 2025 3 3,
    startHour := 8, durationHours := 4, weekKey := "2025-W10" }

/-- A draft with the same payload as `recDup` (no id property, as the
store-level draft of the contract). -/
def draftDup : Rec := { recDup with idF := IdField.absent }

/-- C7 counterexample: starting from a store that already holds a
booking with the same payload, `create` followed by `listForWeek`
returns *two* records equal (modulo id) to the created one — not
exactly one.  The claim's "starting from any store state" is too
strong. -/
theorem c7_roundtrip_cex :
    List.countP (fun r => eqModId r (apiCreateLS "b_1" draftDup [("b_0", recDup)]).2)
      (apiGetWeekLS "2025-W10" (apiCreateLS "b_1" draftDup [("b_0", recDup)]).1) = 2 := by
  decide

/-- Model of `POST /bookings` with a JSON body, as the handler receives it. -/
def postReq (draft : Rec) : Req :=
  { method := Method.post, query := { weekKey := none, id := none }, body := some draft }

theorem handler_post_reduce (gen : String) (draft : Rec) (cache : Srv)
    (hwk : draft.weekKey ≠ "") :
    handler gen (postReq draft) cache =
      (setKey (ensureBucket cache draft.weekKey) draft.weekKey
        (setKey (bucket (ensureBucket cache draft.weekKey) draft.weekKey) gen
          { draft with idF := spreadId gen draft.idF }),
       { status := 201, allow := none,
         body := RespBody.jsonRecord { draft with idF := spreadId gen draft.idF } }) := by
  simp only [handler, postReq, jsOr, jsTruthy, Option.map, if_neg hwk]
  rfl

theorem bucket_setKey_self (cache : Srv) (wk : String) (b : List (String × Rec)) :
    bucket (setKey cache wk b) wk = b := by
  unfold bucket
  rw [lookupKey_setKey_self]
  rfl

/-- C7 (amended): if the initial store holds *no* record equal
(modulo id) to the draft and the generated id is fresh, then `create`
followed by `listForWeek(draft.weekKey)` contains exactly one record
equal (modulo id) to the created record — in the localStorage backend
and in the handler (POST then GET listing of the week's bucket).  In
general the listing gains exactly one matching record, so "exactly one"
holds only from matching-free states. -/
theorem c7_roundtrip_fresh (gen : String) (draft : Rec) (all : LSStore) (cache : Srv)
    (hfresh : gen ∉ keysOf all)
    (h0 : List.countP (fun r => eqModId r draft) (apiGetWeekLS draft.weekKey all) = 0)
    (hbfresh : gen ∉ keysOf (bucket cache draft.weekKey))
    (hb0 : List.countP (fun r => eqModId r draft) (values (bucket cache draft.weekKey)) = 0)
    (hwkt : draft.weekKey ≠ "") :
    (eqModId (apiCreateLS gen draft all).2 draft = true ∧
      List.countP (fun r => eqModId r draft)
        (apiGetWeekLS draft.weekKey (apiCreateLS gen draft all).1) = 1) ∧
    ((handler gen (postReq draft) cache).2.body =
        RespBody.jsonRecord { draft with idF := spreadId gen draft.idF } ∧
      eqModId { draft with idF := spreadId gen draft.idF } draft = true ∧
      List.countP (fun r => eqModId r draft)
        (values (bucket (handler gen (postReq draft) cache).1 draft.weekKey)) = 1) := by
  have heqJ : eqModId (jsonRoundTrip { draft with idF := spreadId gen draft.idF }) draft = true := by
    simp [eqModId, jsonRoundTrip]
  have heq : eqModId { draft with idF := spreadId gen draft.idF } draft = true := by
    simp [eqModId]
  refine ⟨⟨by simp [apiCreateLS, eqModId], ?_⟩, ?_⟩
  · -- localStorage leg
    have happ : (apiCreateLS gen draft all).1 =
        all ++ [(gen, jsonRoundTrip { draft with idF := spreadId gen draft.idF })] := by
      unfold apiCreateLS
      exact setKey_of_not_mem all gen _ hfresh
    have hlist : apiGetWeekLS draft.weekKey (apiCreateLS gen draft all).1 =
        apiGetWeekLS draft.weekKey all ++
          [jsonRoundTrip { draft with idF := spreadId gen draft.idF }] := by
      rw [happ]
      unfold apiGetWeekLS values
      rw [List.map_append, List.filter_append]
      simp [jsonRoundTrip]
    rw [hlist, List.countP_append, h0, List.countP_cons]
    simp [heqJ]
  · -- handler leg
    rw [handler_post_reduce gen draft cache hwkt]
    refine ⟨rfl, heq, ?_⟩
    have hbucket : bucket (setKey (ensureBucket cache draft.weekKey) draft.weekKey
        (setKey (bucket (ensureBucket cache draft.weekKey) draft.weekKey) gen
          { draft with idF := spreadId gen draft.idF })) draft.weekKey =
        setKey (bucket cache draft.weekKey) gen { draft with idF := spreadId gen draft.idF } := by
      rw [bucket_ensureBucket, bucket_setKey_self]
    rw [hbucket, setKey_of_not_mem _ _ _ hbfresh]
    unfold values at hb0 ⊢
    rw [List.map_append, List.countP_append, hb0]
    simp [heq]

/-- C7 witness: creating `draftDup` with fresh id `"b_9"` in empty
stores yields exactly one matching listing entry in both backends. -/
theorem c7_roundtrip_fresh_witness :
    eqModId (apiCreateLS "b_9" draftDup []).2 draftDup = true ∧
    List.countP (fun r => eqModId r draftDup)
      (apiGetWeekLS draftDup.weekKey (apiCreateLS "b_9" draftDup []).1) = 1 :=
  (c7_roundtrip_fresh "b_9" draftDup [] []
    (by decide) (by decide) (by decide) (by decide) (by decide)).1

/-! ### Claim C8 -/

/-- C8 counterexample: 20 is a selectable start hour in App.jsx
(`HOURS` runs from `hoursStart` to `hoursEnd` *inclusive*, an
off-by-one against the exclusive `hoursEnd`), yet `20 + 4 = 24`
exceeds the visible-day boundary `hoursEnd = 20`. -/
theorem c8_start_hours_cex : (20 : Int) ∈ HOURS ∧ ¬((20 : Int) + 4 ≤ hoursEnd) := by
  decide

/-- C8 (amended): every selectable App.jsx start hour lies in the
configured inclusive range `[hoursStart, hoursEnd]`, but
`startHour + 4 ≤ hoursEnd` holds exactly for the hours up to 16 — the
selectable hours 17–20 violate the visible-day boundary.  The roster
variant's selectable hours 6–18 all satisfy its own guard
`startHour + 4 ≤ 24`. -/
theorem c8_start_hours_bounds :
    HOURS.all (fun h => decide (hoursStart ≤ h) && decide (h ≤ hoursEnd)) = true ∧
    HOURS.all (fun h => decide (h + 4 ≤ hoursEnd) == decide (h ≤ 16)) = true ∧
    Roster.HOURS.all (fun h => decide (6 ≤ h) && decide (h ≤ 18) && decide (h + 4 ≤ 24)) = true := by
  decide

/-! ### Claim C9 -/

/-- A request with an arbitrary (non-GET/POST/DELETE) method. -/
def otherReq (name : String) (q : Query) (b : Option Rec) : Req :=
  { method := Method.other name, query := q, body := b }

/-- C9 counterexample: a PUT request carrying no `weekKey` is answered
with 400 and no `Allow` header — the missing-weekKey check precedes the
method dispatch, so "any other method → 405" fails as stated. -/
theorem c9_unknown_method_cex :
    (handler "" (otherReq "PUT" { weekKey := none, id := none } none) []).2.status = 400 ∧
    (handler "" (otherReq "PUT" { weekKey := none, id := none } none) []).2.allow = none := by
  exact ⟨rfl, rfl⟩

/-- C9 (amended): a request whose method is none of GET/POST/DELETE is
answered 405 with `Allow: GET, POST, DELETE`, *provided* it carries a
truthy `weekKey` (in query or body); without one, any method gets 400
first. -/
theorem c9_unknown_method_405 (gen name wk : String) (q : Query) (b : Option Rec)
    (cache : Srv)
    (hwk : jsTruthy (jsOr q.weekKey (Option.map (fun r => r.weekKey) b)) = some wk) :
    (handler gen (otherReq name q b) cache).2.status = 405 ∧
    (handler gen (otherReq name q b) cache).2.allow = some ["GET", "POST", "DELETE"] ∧
    (handler gen (otherReq name q b) cache).2.body =
      RespBody.text ("Method " ++ name ++ " Not Allowed") := by
  refine ⟨?_, ?_, ?_⟩ <;> simp only [handler, otherReq, hwk]

/-- C9 witness: `PUT /bookings?weekKey=2025-W46` gets 405 with the
Allow header. -/
theorem c9_unknown_method_405_witness :
    (handler "" (otherReq "PUT" { weekKey := some "2025-W46", id := none } none) []).2.status = 405 ∧
    (handler "" (otherReq "PUT" { weekKey := some "2025-W46", id := none } none) []).2.allow =
      some ["GET", "POST", "DELETE"] ∧
    (handler "" (otherReq "PUT" { weekKey := some "2025-W46", id := none } none) []).2.body =
      RespBody.text "Method PUT Not Allowed" :=
  c9_unknown_method_405 "" "PUT" "2025-W46" { weekKey := some "2025-W46", id := none } none []
    (by decide)

/-! ### Claim C10 -/

theorem invA_thisWeek (s : Roster.Assigns) (hi : Roster.InvA s) (wk : String) :
    (keysOf (Roster.thisWeek s wk)).Nodup := by
  unfold Roster.thisWeek
  cases hl : lookupKey s wk with
  | none => simp [keysOf]
  | some w => exact hi.2 (wk, w) (lookupKey_mem s wk w hl)

theorem invA_assignFourHours (s : Roster.Assigns) (wk pid : String) (d h : Int)
    (hi : Roster.InvA s) : Roster.InvA (Roster.assignFourHours s wk pid d h) := by
  unfold Roster.assignFourHours
  by_cases h1 : pid = ""
  · rw [if_pos h1]
    exact hi
  · rw [if_neg h1]
    by_cases h2 : h + 4 > 24
    · rw [if_pos h2]
      exact hi
    · rw [if_neg h2]
      constructor
      · exact nodup_keysOf_setKey s wk _ hi.1
      · intro p hp
        rcases mem_setKey s wk _ p hp with he | hm
        · rw [he]
          exact nodup_keysOf_setKey _ pid _ (invA_thisWeek s hi wk)
        · exact hi.2 p hm

theorem invA_clearAssignment (s : Roster.Assigns) (wk pid : String)
    (hi : Roster.InvA s) : Roster.InvA (Roster.clearAssignment s wk pid) := by
  unfold Roster.clearAssignment
  constructor
  · exact nodup_keysOf_setKey s wk _ hi.1
  · intro p hp
    rcases mem_setKey s wk _ p hp with he | hm
    · rw [he]
      exact nodup_keysOf_eraseKey _ pid (invA_thisWeek s hi wk)
    · exact hi.2 p hm

theorem reachableA_invA (s : Roster.Assigns) (hr : Roster.ReachableA s) :
    Roster.InvA s := by
  induction hr with
  | init => exact ⟨List.nodup_nil, fun p hp => absurd hp (List.not_mem_nil p)⟩
  | assign wk pid d h hs ih => exact invA_assignFourHours _ wk pid d h ih
  | clear wk pid hs ih => exact invA_clearAssignment _ wk pid ih

/-- C10: every reachable `assignments` state keeps at most one
assignment per (week, person) pair (the per-week map is keyed by person
id with distinct keys), the invariant is preserved by both mutations
from any reachable state, and `assignFourHours` for a person who
already holds an assignment that week silently *replaces* it (provided
the non-empty-person and `startHour + 4 ≤ 24` guards pass). -/
theorem c10_one_assignment_per_person (s : Roster.Assigns) (hr : Roster.ReachableA s) :
    Roster.InvA s ∧
    (∀ wk pid : String, ∀ d h : Int,
      Roster.InvA (Roster.assignFourHours s wk pid d h) ∧
      Roster.InvA (Roster.clearAssignment s wk pid)) ∧
    (∀ wk pid : String, ∀ d h : Int, ∀ e0 : Roster.Entry,
      lookupKey (Roster.thisWeek s wk) pid = some e0 → pid ≠ "" → h + 4 ≤ 24 →
      lookupKey (Roster.thisWeek (Roster.assignFourHours s wk pid d h) wk) pid =
        some { dayIndex := d, startHour := h }) := by
  have hi := reachableA_invA s hr
  refine ⟨hi, fun wk pid d h =>
    ⟨invA_assignFourHours s wk pid d h hi, invA_clearAssignment s wk pid hi⟩, ?_⟩
  intro wk pid d h e0 hlk hpid hbound
  unfold Roster.assignFourHours
  rw [if_neg hpid, if_neg (by omega)]
  unfold Roster.thisWeek
  rw [lookupKey_setKey_self]
  exact lookupKey_setKey_self _ pid _

/-- A reachable roster state with Alex's `p1` assigned in week
2025-W46. -/
def rosterS1 : Roster.Assigns := Roster.assignFourHours [] "2025-W46" "p1" 0 8

/-- C10 witness: re-assigning `p1` in the same week replaces the
existing entry. -/
theorem c10_one_assignment_per_person_witness :
    lookupKey (Roster.thisWeek (Roster.assignFourHours rosterS1 "2025-W46" "p1" 2 10)
      "2025-W46") "p1" = some { dayIndex := 2, startHour := 10 } :=
  (c10_one_assignment_per_person rosterS1
      (Roster.ReachableA.assign "2025-W46" "p1" 0 8 Roster.ReachableA.init)).2.2
    "2025-W46" "p1" 2 10 { dayIndex := 0, startHour := 8 } (by decide) (by decide) (by decide)
